import Mathlib

/-!
Shallow embedding of the UI-tree snapshot engine of this repository
(`src/tree/__init__.py`, class `Tree`): the node classifier, the
depth-first tree walk, the per-application partitioner/scheduler and the
annotator geometry, together with theorems checking the specification's
claims against them.

Conventions of the embedding:
* Platform accessibility queries that can raise are modelled as `Option`
  fields of the node record (`none` = the query raises); code paths that
  let such an exception propagate are modelled with `Except Unit`.
* Python strings/ints become `String`/`Int`; `s or t` on strings becomes
  `strOr` (Python truthiness of a string is non-emptiness).
* The configuration sets (`INTERACTIVE_CONTROL_TYPE_NAMES`,
  `INFORMATIVE_CONTROL_TYPE_NAMES`, `DEFAULT_ACTIONS`, `AVOIDED_APPS`)
  live in repository config modules that only enumerate string constants;
  they are kept abstract as a `TreeConfig` parameter.
-/

/-- Python `s or t` for strings: `t` when `s` is empty, else `s`. -/
def strOr (s t : String) : String := if s = "" then t else s

/-- Python `str.strip()`: drop leading and trailing whitespace. -/
def pyStrip (s : String) : String :=
  String.mk (((s.data.dropWhile Char.isWhitespace).reverse.dropWhile Char.isWhitespace).reverse)

/-- Python `str.capitalize()`: first character upper-cased, the rest lower-cased. -/
def pyCapitalize (s : String) : String :=
  match s.data with
  | [] => ""
  | c :: cs => String.mk (c.toUpper :: cs.map Char.toLower)

/-- One step of Python `str.title()`: upper-case a letter that follows a
non-letter, lower-case a letter that follows a letter. The `Bool` argument
records whether the previous character was a letter. -/
def pyTitleGo : Bool → List Char → List Char
  | _, [] => []
  | prev, c :: cs =>
    if c.isAlpha then
      (if prev then c.toLower else c.toUpper) :: pyTitleGo true cs
    else
      c :: pyTitleGo false cs

/-- Python `str.title()`. -/
def pyTitle (s : String) : String := String.mk (pyTitleGo false s.data)

/-- The literal two-apostrophe placeholder string the source emits for empty
display names. -/
def emptyNamePlaceholder : String := String.mk [Char.ofNat 39, Char.ofNat 39]

/-- The platform bounding rectangle (uiautomation `Rect`), modelled per spec
section 4.1: `width`/`height` are the coordinate differences and a box with
zero or negative width or height is empty. -/
structure Rect where
  left : Int
  top : Int
  right : Int
  bottom : Int
deriving DecidableEq

def Rect.width (r : Rect) : Int := r.right - r.left

def Rect.height (r : Rect) : Int := r.bottom - r.top

def Rect.isempty (r : Rect) : Bool := r.width ≤ 0 || r.height ≤ 0

/-- Horizontal midpoint, with Python floor division. -/
def Rect.xcenter (r : Rect) : Int := r.left + Int.fdiv r.width 2

/-- Vertical midpoint, with Python floor division. -/
def Rect.ycenter (r : Rect) : Int := r.top + Int.fdiv r.height 2

/-- Result of `GetScrollPattern`: the two scrollability flags. -/
structure ScrollInfo where
  vertical : Bool
  horizontal : Bool
deriving DecidableEq

/-- The platform-reported attributes of one accessibility-tree node.
`Option` fields model queries that can raise (`none` = raises);
`childrenOk = false` means `GetChildren` raises on this node. -/
structure NodeAttrs where
  Name : String
  ControlTypeName : Option String
  LocalizedControlType : String
  AcceleratorKey : String
  BoundingRectangle : Option Rect
  IsOffscreen : Bool
  IsEnabled : Option Bool
  isImage : Bool
  legacyDefaultAction : Option String
  scrollPattern : Option ScrollInfo
  childrenOk : Bool
deriving DecidableEq

mutual
inductive UINode where
  | mk (attrs : NodeAttrs) (children : UIForest)

inductive UIForest where
  | nil
  | cons (hd : UINode) (tl : UIForest)
end

def UINode.attrs : UINode → NodeAttrs
  | .mk a _ => a

def UINode.children : UINode → UIForest
  | .mk _ c => c

def UINode.Name (n : UINode) : String := n.attrs.Name

def UINode.ControlTypeName (n : UINode) : Option String := n.attrs.ControlTypeName

def UINode.LocalizedControlType (n : UINode) : String := n.attrs.LocalizedControlType

def UINode.AcceleratorKey (n : UINode) : String := n.attrs.AcceleratorKey

def UINode.BoundingRectangle (n : UINode) : Option Rect := n.attrs.BoundingRectangle

def UINode.IsOffscreen (n : UINode) : Bool := n.attrs.IsOffscreen

def UINode.IsEnabled (n : UINode) : Option Bool := n.attrs.IsEnabled

def UINode.isImage (n : UINode) : Bool := n.attrs.isImage

def UINode.legacyDefaultAction (n : UINode) : Option String := n.attrs.legacyDefaultAction

def UINode.scrollPattern (n : UINode) : Option ScrollInfo := n.attrs.scrollPattern

def UINode.childrenOk (n : UINode) : Bool := n.attrs.childrenOk

def UIForest.toList : UIForest → List UINode
  | .nil => []
  | .cons a f => a :: UIForest.toList f

/-- The externally-supplied configuration sets consumed by the engine
(spec section 6): interactive and informative control-type allow-lists, the
default-action verb allow-list, and the always-ignored application names. -/
structure TreeConfig where
  INTERACTIVE_CONTROL_TYPE_NAMES : List String
  INFORMATIVE_CONTROL_TYPE_NAMES : List String
  DEFAULT_ACTIONS : List String
  AVOIDED_APPS : List String

/-- Modelled from the spec: data class `BoundingBox` of `src/tree/views.py`
(spec section 3), four integer screen coordinates. -/
structure BoundingBox where
  left : Int
  top : Int
  right : Int
  bottom : Int
deriving DecidableEq

/-- Modelled from the spec: data class `Center` of `src/tree/views.py`
(spec section 3). -/
structure Center where
  x : Int
  y : Int
deriving DecidableEq

/-- Modelled from the spec: data class `TreeElementNode` of
`src/tree/views.py` (spec section 3), with the fields the walker fills. -/
structure TreeElementNode where
  name : String
  control_type : String
  shortcut : String
  bounding_box : BoundingBox
  center : Center
  app_name : String
deriving DecidableEq

/-- Modelled from the spec: data class `TextElementNode` of
`src/tree/views.py` (spec section 3). -/
structure TextElementNode where
  name : String
  app_name : String
deriving DecidableEq

/-- Modelled from the spec: data class `ScrollElementNode` of
`src/tree/views.py` (spec section 3). -/
structure ScrollElementNode where
  name : String
  app_name : String
  center : Center
  horizontal_scrollable : Bool
  vertical_scrollable : Bool
deriving DecidableEq

/-- Modelled from the spec: data class `TreeState` of `src/tree/views.py`
(spec section 3), the aggregate snapshot. -/
structure TreeState where
  interactive_nodes : List TreeElementNode
  informative_nodes : List TextElementNode
  scrollable_nodes : List ScrollElementNode
deriving DecidableEq

/-- Componentwise concatenation of two snapshots (the `extend` calls of the
source merge results this way). -/
def tsAppend (a b : TreeState) : TreeState :=
  ⟨a.interactive_nodes ++ b.interactive_nodes,
   a.informative_nodes ++ b.informative_nodes,
   a.scrollable_nodes ++ b.scrollable_nodes⟩

/-- `is_element_visible` of the source: raises when the bounding-rectangle
query raises; otherwise false on an empty box, else area must exceed the
threshold and the node must not be off-screen. -/
def is_element_visible (node : UINode) (threshold : Int) : Except Unit Bool :=
  match node.BoundingRectangle with
  | none => .error ()
  | some box =>
    if box.isempty then .ok false
    else .ok (decide (box.width * box.height > threshold) && !node.IsOffscreen)

/-- `is_element_enabled` of the source: a raising `IsEnabled` query is
caught and treated as disabled. -/
def is_element_enabled (node : UINode) : Bool :=
  match node.IsEnabled with
  | none => false
  | some b => b

/-- `is_element_image` of the source: an image control with an empty display
name or the generic graphic label. -/
def is_element_image (node : UINode) : Bool :=
  node.isImage && (pyStrip node.Name = "" || node.LocalizedControlType = "graphic")

/-- `is_default_action` of the source: raises when the legacy pattern query
raises, else tests the reported default action against the allow-list. -/
def is_default_action (cfg : TreeConfig) (node : UINode) : Except Unit Bool :=
  match node.legacyDefaultAction with
  | none => .error ()
  | some act => .ok (cfg.DEFAULT_ACTIONS.contains act)

/-- `is_element_interactive` of the source: the body's result, before the
surrounding try/except collapses a raise to `False`. -/
def is_element_interactive_body (cfg : TreeConfig) (node : UINode) : Except Unit Bool :=
  match node.ControlTypeName with
  | none => .error ()
  | some ct =>
    if cfg.INTERACTIVE_CONTROL_TYPE_NAMES.contains ct then
      match is_element_visible node 0 with
      | .error e => .error e
      | .ok v => .ok (v && is_element_enabled node && !is_element_image node)
    else if ct = "GroupControl" then
      match is_element_visible node 0 with
      | .error e => .error e
      | .ok v =>
        if v && is_element_enabled node then is_default_action cfg node
        else .ok false
    else .ok false

/-- `is_element_interactive` of the source, raise collapsed to `False`. -/
def is_element_interactive (cfg : TreeConfig) (node : UINode) : Bool :=
  match is_element_interactive_body cfg node with
  | .error _ => false
  | .ok b => b

/-- `is_element_text` of the source: the body's result, before the
surrounding try/except collapses a raise to `False`. -/
def is_element_text_body (cfg : TreeConfig) (node : UINode) : Except Unit Bool :=
  match node.ControlTypeName with
  | none => .error ()
  | some ct =>
    if cfg.INFORMATIVE_CONTROL_TYPE_NAMES.contains ct then
      match is_element_visible node 0 with
      | .error e => .error e
      | .ok v => .ok (v && is_element_enabled node && !is_element_image node)
    else .ok false

/-- `is_element_text` of the source, raise collapsed to `False`. -/
def is_element_text (cfg : TreeConfig) (node : UINode) : Bool :=
  match is_element_text_body cfg node with
  | .error _ => false
  | .ok b => b

/-- `is_element_scrollable` of the source: a raising `GetScrollPattern` is
caught and treated as not scrollable. -/
def is_element_scrollable (node : UINode) : Bool :=
  match node.scrollPattern with
  | none => false
  | some sp => sp.vertical || sp.horizontal

/-- The classification-and-append step `tree_traversal` performs on one
node (the `if`/`elif`/`elif` chain), producing that node's contribution to
the three lists. The bounding-rectangle and scroll-pattern reads of the
emitting branches sit outside any try/except in the source, so a raise
there is propagated (`Except.error`). -/
def visit (cfg : TreeConfig) (app_name : String) (node : UINode) : Except Unit TreeState :=
  if is_element_interactive cfg node then
    match node.BoundingRectangle with
    | none => .error ()
    | some box =>
      .ok ⟨[⟨strOr (pyStrip node.Name) emptyNamePlaceholder,
             pyTitle node.LocalizedControlType,
             strOr node.AcceleratorKey emptyNamePlaceholder,
             ⟨box.left, box.top, box.right, box.bottom⟩,
             ⟨box.xcenter, box.ycenter⟩,
             app_name⟩], [], []⟩
  else if is_element_text cfg node then
    .ok ⟨[], [⟨strOr (pyStrip node.Name) emptyNamePlaceholder, app_name⟩], []⟩
  else if is_element_scrollable node then
    match node.scrollPattern with
    | none => .error ()
    | some sp =>
      match node.BoundingRectangle with
      | none => .error ()
      | some box =>
        .ok ⟨[], [],
             [⟨strOr (pyStrip node.Name)
                 (strOr (pyCapitalize node.LocalizedControlType) emptyNamePlaceholder),
               app_name,
               ⟨box.xcenter, box.ycenter⟩,
               sp.horizontal,
               sp.vertical⟩]⟩
  else .ok ⟨[], [], []⟩

mutual
/-- `tree_traversal` of the source on one node: classify the node, then
recurse into its children. There is no try/except here, so any raise —
in particular a raising `GetChildren` (`childrenOk = false`) — aborts the
whole walk of this application. -/
def tree_traversal (cfg : TreeConfig) (app_name : String) : UINode → Except Unit TreeState
  | .mk attrs children =>
    match visit cfg app_name (.mk attrs children) with
    | .error e => .error e
    | .ok here =>
      if attrs.childrenOk then
        match tree_traversal_children cfg app_name children with
        | .error e => .error e
        | .ok rest => .ok (tsAppend here rest)
      else .error ()

/-- The `for child in node.GetChildren(): tree_traversal(child)` loop. -/
def tree_traversal_children (cfg : TreeConfig) (app_name : String) : UIForest → Except Unit TreeState
  | .nil => .ok ⟨[], [], []⟩
  | .cons c cs =>
    match tree_traversal cfg app_name c with
    | .error e => .error e
    | .ok t =>
      match tree_traversal_children cfg app_name cs with
      | .error e => .error e
      | .ok ts => .ok (tsAppend t ts)
end

/-- `get_nodes` of the source: compute the application label (the shell
window is renamed `Desktop`) and walk the application's subtree. -/
def get_nodes (cfg : TreeConfig) (node : UINode) : Except Unit TreeState :=
  let an := pyStrip node.Name
  tree_traversal cfg (if an = "Program Manager" then "Desktop" else an) node

/-- Insert into a Python dict modelled as an insertion-ordered association
list: an existing key keeps its position and gets the new value, a new key
is appended at the end. -/
def dinsert (k : String) (v : UINode) : List (String × UINode) → List (String × UINode)
  | [] => [(k, v)]
  | p :: rest => if p.1 = k then (k, v) :: rest else p :: dinsert k v rest

/-- Python dict lookup. -/
def dfind (k : String) : List (String × UINode) → Option UINode
  | [] => none
  | p :: rest => if p.1 = k then some p.2 else dfind k rest

/-- Removal of a key from a Python dict (keys are unique, so filtering all
matches agrees with removing the one entry). -/
def dremove (k : String) (d : List (String × UINode)) : List (String × UINode) :=
  d.filter (fun p => !(p.1 = k))

/-- Python `dict.pop(k)` without default: `none` models the `KeyError`. -/
def dpop (k : String) (d : List (String × UINode)) : Option (UINode × List (String × UINode)) :=
  match dfind k d with
  | none => none
  | some v => some (v, dremove k d)

/-- The dict comprehension `{app.Name: app for app in ...}`: sequential
insertion keyed by window name. -/
def dict_of (L : List UINode) : List (String × UINode) :=
  L.foldl (fun d a => dinsert a.Name a d) []

/-- The last window of the list bearing the given name (the value a
name-keyed Python dict retains for that name). -/
def lastWith (k : String) : List UINode → Option UINode
  | [] => none
  | a :: as =>
    match lastWith k as with
    | some b => some b
    | none => if a.Name = k then some a else none

/-- The top-level windows that survive the comprehension's filter: reported
visible by the Desktop collaborator and not in the always-ignored
block-list, in platform enumeration order. -/
def candidate_windows (cfg : TreeConfig) (visible : UINode → Bool) (root : UINode) : List UINode :=
  root.children.toList.filter (fun a => visible a && !(cfg.AVOIDED_APPS.contains a.Name))

/-- The selection steps of `get_appwise_nodes`: build the name-keyed dict of
candidate windows, pop the taskbar and the shell window (a missing key
raises the `KeyError` the source does not catch), and take the first
remaining dict value, if any, as the foreground application. -/
def selection_parts (cfg : TreeConfig) (visible : UINode → Bool) (root : UINode) :
    Except Unit (UINode × UINode × Option UINode) :=
  if root.childrenOk then
    match dpop "Taskbar" (dict_of (candidate_windows cfg visible root)) with
    | none => .error ()
    | some (tb, va1) =>
      match dpop "Program Manager" va1 with
      | none => .error ()
      | some (pm, va2) =>
        .ok (tb, pm, va2.head?.map Prod.snd)
  else .error ()

/-- The `apps` dict of `get_appwise_nodes`: taskbar and shell entries, then
`apps[foreground_app.Name.strip()] = foreground_app` when a foreground
candidate exists. -/
def selected_apps (cfg : TreeConfig) (visible : UINode → Bool) (root : UINode) :
    Except Unit (List (String × UINode)) :=
  match selection_parts cfg visible root with
  | .error e => .error e
  | .ok (tb, pm, none) => .ok [("Taskbar", tb), ("Program Manager", pm)]
  | .ok (tb, pm, some fg) =>
    .ok (dinsert (pyStrip fg.Name) fg [("Taskbar", tb), ("Program Manager", pm)])

/-- One scheduled walk task: the scheduler catches a raising task and omits
its contribution (`except Exception ... continue`), so a failed walk
contributes the empty triple. -/
def run_app (cfg : TreeConfig) (a : UINode) : TreeState :=
  match get_nodes cfg a with
  | .error _ => ⟨[], [], []⟩
  | .ok t => t

/-- Merging of per-application results in the order the tasks complete:
each completed task extends the three aggregate lists. -/
def collect (cfg : TreeConfig) (apps : List UINode) : TreeState :=
  ⟨apps.flatMap (fun a => (run_app cfg a).interactive_nodes),
   apps.flatMap (fun a => (run_app cfg a).informative_nodes),
   apps.flatMap (fun a => (run_app cfg a).scrollable_nodes)⟩

/-- `get_appwise_nodes` of the source. `reorder` models `as_completed`:
the nondeterministic completion order in which the scheduler consumes the
per-application futures (a permutation of the submitted apps). -/
def get_appwise_nodes (cfg : TreeConfig) (visible : UINode → Bool)
    (reorder : List UINode → List UINode) (root : UINode) : Except Unit TreeState :=
  match selected_apps cfg visible root with
  | .error e => .error e
  | .ok sel => .ok (collect cfg (reorder (sel.map Prod.snd)))

/-- Python `int()` on a rational: truncation toward zero (the numerator
divided by the denominator with `Int.tdiv`, the toward-zero division). -/
def pyInt (q : Rat) : Int := Int.tdiv q.num (q.den : Int)

/-- The scaled-and-padded box the annotator's per-node draw task computes:
each coordinate is scaled, truncated with `int()`, and shifted by the
padding. -/
def adjusted_box (scale : Rat) (padding : Int) (box : BoundingBox) : BoundingBox :=
  ⟨pyInt ((box.left : Rat) * scale) + padding,
   pyInt ((box.top : Rat) * scale) + padding,
   pyInt ((box.right : Rat) * scale) + padding,
   pyInt ((box.bottom : Rat) * scale) + padding⟩

/-- Attribute record with every query defaulting to a benign value: no
classification applies and children enumeration succeeds. -/
def baseAttrs : NodeAttrs :=
  ⟨"", none, "", "", none, false, none, false, none, none, true⟩

/-- A small concrete configuration used by the concrete scenes. -/
def cfgStd : TreeConfig :=
  ⟨["ButtonControl"], ["TextControl"], ["Click"], ["Blocked App"]⟩

/-- Attributes of an enabled, visible push button. -/
def buttonAttrs (nm : String) : NodeAttrs :=
  ⟨nm, some "ButtonControl", "button", "", some ⟨0, 0, 10, 10⟩,
   false, some true, false, none, none, true⟩

/-- A childless enabled visible button node. -/
def buttonNode (nm : String) : UINode := .mk (buttonAttrs nm) .nil

/-- The interactive record the walker emits for `buttonNode nm`. -/
def buttonElem (nm app : String) : TreeElementNode :=
  ⟨nm, "Button", emptyNamePlaceholder, ⟨0, 0, 10, 10⟩, ⟨5, 5⟩, app⟩

/-- Visibility oracle that reports every window visible. -/
def visAll : UINode → Bool := fun _ => true

/-- A desktop root with the given top-level windows. -/
def rootOf (f : UIForest) : UINode := .mk baseAttrs f

def tbWin : UINode := buttonNode "Taskbar"

def pmWin : UINode := buttonNode "Program Manager"

/-- A visible window whose name is on the always-ignored block-list of `cfgStd`. -/
def blockedWin : UINode := buttonNode "Blocked App"

/-- Scene: taskbar, a block-listed window, and the shell window. -/
def root6 : UINode := rootOf (.cons tbWin (.cons blockedWin (.cons pmWin .nil)))

/-- The `apps` dict `get_appwise_nodes` builds for `root6`. -/
def sel6 : List (String × UINode) := [("Taskbar", tbWin), ("Program Manager", pmWin)]

/-- Snapshot of `root6` when the taskbar's walk completes first. -/
def t6a : TreeState :=
  ⟨[buttonElem "Taskbar" "Taskbar", buttonElem "Program Manager" "Desktop"], [], []⟩

/-- Snapshot of `root6` when the shell window's walk completes first. -/
def t6b : TreeState :=
  ⟨[buttonElem "Program Manager" "Desktop", buttonElem "Taskbar" "Taskbar"], [], []⟩

def calcWin : UINode := buttonNode "Calc"

/-- Scene with one foreground candidate of a distinct name. -/
def root4w : UINode := rootOf (.cons tbWin (.cons pmWin (.cons calcWin .nil)))

/-- First-enumerated of two windows sharing the display name `App`. -/
def dupA : UINode := .mk ⟨"App", none, "", "first", none, false, none, false, none, none, true⟩ .nil

/-- Last-enumerated of two windows sharing the display name `App`. -/
def dupB : UINode := .mk ⟨"App", none, "", "second", none, false, none, false, none, none, true⟩ .nil

/-- Scene with two same-named foreground candidates. -/
def root4x : UINode := rootOf (.cons tbWin (.cons pmWin (.cons dupA (.cons dupB .nil))))

/-- Scene without a taskbar window. -/
def root7 : UINode := rootOf (.cons pmWin .nil)

/-- A node whose `GetChildren` raises. -/
def badChild : UINode := .mk ⟨"Bad", none, "", "", none, false, none, false, none, none, false⟩ .nil

/-- An application whose second child's `GetChildren` raises while its first
and third children are classifiable buttons. -/
def c3app : UINode :=
  .mk ⟨"MyApp", none, "", "", none, false, none, false, none, none, true⟩
    (.cons (buttonNode "Good1") (.cons badChild (.cons (buttonNode "Good2") .nil)))

/-- A zero-area node exposing a vertical scroll pattern. -/
def zeroScrollNode : UINode :=
  .mk ⟨"", none, "pane", "", some ⟨0, 0, 0, 0⟩, false, none, false, none, some ⟨true, false⟩, true⟩ .nil

/-- A button whose bounding box has zero width. -/
def deadButtonNode : UINode :=
  .mk ⟨"Dead", some "ButtonControl", "button", "", some ⟨5, 5, 5, 9⟩, false, some true, false, none, none, true⟩ .nil

/-- A scrollable pane whose display name is whitespace-only. -/
def wsScrollNode : UINode :=
  .mk ⟨"  ", none, "pane", "", some ⟨0, 0, 4, 4⟩, false, none, false, none, some ⟨true, false⟩, true⟩ .nil

/-- A static-text node with a whitespace-only display name. -/
def emptyTextNode : UINode :=
  .mk ⟨" ", some "TextControl", "text", "", some ⟨0, 0, 4, 4⟩, false, some true, false, none, none, true⟩ .nil

/-- The visible non-blocked windows other than the taskbar and the shell
window, in enumeration order (the pool the foreground is drawn from). -/
def otherCandidates (cfg : TreeConfig) (visible : UINode → Bool) (root : UINode) : List UINode :=
  ((candidate_windows cfg visible root).filter (fun a => !(a.Name = "Taskbar"))).filter
    (fun a => !(a.Name = "Program Manager"))

theorem interactive_checks (cfg : TreeConfig) (n : UINode)
    (h : is_element_interactive cfg n = true) :
    is_element_visible n 0 = .ok true ∧ is_element_enabled n = true := by
  unfold is_element_interactive at h
  cases hb : is_element_interactive_body cfg n with
  | error e => rw [hb] at h; cases h
  | ok b =>
    rw [hb] at h
    subst h
    unfold is_element_interactive_body at hb
    cases hct : n.ControlTypeName with
    | none => rw [hct] at hb; cases hb
    | some ct =>
      rw [hct] at hb
      dsimp only at hb
      by_cases hin : cfg.INTERACTIVE_CONTROL_TYPE_NAMES.contains ct
      · rw [if_pos hin] at hb
        cases hv : is_element_visible n 0 with
        | error e => rw [hv] at hb; cases hb
        | ok v =>
          rw [hv] at hb
          injection hb with hb
          simp only [Bool.and_eq_true] at hb
          exact ⟨by rw [hb.1.1], hb.1.2⟩
      · rw [if_neg hin] at hb
        by_cases hgc : ct = "GroupControl"
        · rw [if_pos hgc] at hb
          cases hv : is_element_visible n 0 with
          | error e => rw [hv] at hb; cases hb
          | ok v =>
            rw [hv] at hb
            dsimp only at hb
            by_cases hve : (v && is_element_enabled n) = true
            · simp only [Bool.and_eq_true] at hve
              exact ⟨by rw [hve.1], hve.2⟩
            · rw [if_neg hve] at hb; injection hb with hb; cases hb
        · rw [if_neg hgc] at hb; injection hb with hb; cases hb

theorem text_checks (cfg : TreeConfig) (n : UINode)
    (h : is_element_text cfg n = true) :
    is_element_visible n 0 = .ok true ∧ is_element_enabled n = true := by
  unfold is_element_text at h
  cases hb : is_element_text_body cfg n with
  | error e => rw [hb] at h; cases h
  | ok b =>
    rw [hb] at h
    subst h
    unfold is_element_text_body at hb
    cases hct : n.ControlTypeName with
    | none => rw [hct] at hb; cases hb
    | some ct =>
      rw [hct] at hb
      dsimp only at hb
      by_cases hin : cfg.INFORMATIVE_CONTROL_TYPE_NAMES.contains ct
      · rw [if_pos hin] at hb
        cases hv : is_element_visible n 0 with
        | error e => rw [hv] at hb; cases hb
        | ok v =>
          rw [hv] at hb
          injection hb with hb
          simp only [Bool.and_eq_true] at hb
          exact ⟨by rw [hb.1.1], hb.1.2⟩
      · rw [if_neg hin] at hb; injection hb with hb; cases hb

theorem visible_of_empty (n : UINode) (box : Rect) (hb : n.BoundingRectangle = some box)
    (he : box.isempty = true) : is_element_visible n 0 = .ok false := by
  unfold is_element_visible
  rw [hb]
  dsimp only
  rw [if_pos he]

theorem dfind_dinsert (k k' : String) (v : UINode) (d : List (String × UINode)) :
    dfind k (dinsert k' v d) = if k' = k then some v else dfind k d := by
  induction d with
  | nil => by_cases h : k' = k <;> simp [dinsert, dfind, h]
  | cons p rest ih =>
    by_cases h1 : p.1 = k'
    · by_cases h2 : k' = k <;> simp [dinsert, dfind, h1, h2, ih]
    · by_cases h2 : p.1 = k
      · have h3 : ¬(k' = k) := fun he => h1 (h2.trans he.symm)
        rw [if_neg h3]
        show dfind k (if p.1 = k' then (k', v) :: rest else p :: dinsert k' v rest) =
          dfind k (p :: rest)
        rw [if_neg h1]
        show (if p.1 = k then some p.2 else dfind k (dinsert k' v rest)) =
          (if p.1 = k then some p.2 else dfind k rest)
        rw [if_pos h2, if_pos h2]
      · simp [dinsert, dfind, h1, h2, ih]

theorem dfind_fold (k : String) (L : List UINode) :
    ∀ d : List (String × UINode),
      dfind k (L.foldl (fun d a => dinsert a.Name a d) d) =
        match lastWith k L with
        | some v => some v
        | none => dfind k d := by
  induction L with
  | nil => intro d; simp [lastWith]
  | cons a as ih =>
    intro d
    simp only [List.foldl_cons]
    rw [ih]
    cases hl : lastWith k as with
    | some b => simp [lastWith, hl]
    | none =>
      simp only [lastWith, hl]
      rw [dfind_dinsert]
      by_cases hn : a.Name = k <;> simp [hn]

theorem dfind_dict_of (k : String) (L : List UINode) :
    dfind k (dict_of L) = lastWith k L := by
  rw [dict_of, dfind_fold]
  cases lastWith k L <;> simp [dfind]

theorem lastWith_mem (k : String) (L : List UINode) (v : UINode)
    (h : lastWith k L = some v) : v ∈ L := by
  induction L with
  | nil => cases h
  | cons a as ih =>
    rw [lastWith] at h
    cases hl : lastWith k as with
    | some b =>
      rw [hl] at h
      injection h with h
      subst h
      exact List.mem_cons_of_mem _ (ih hl)
    | none =>
      rw [hl] at h
      by_cases hn : a.Name = k
      · rw [if_pos hn] at h
        injection h with h
        subst h
        exact List.mem_cons_self a as
      · rw [if_neg hn] at h; cases h

theorem lastWith_name (k : String) (L : List UINode) (v : UINode)
    (h : lastWith k L = some v) : v.Name = k := by
  induction L with
  | nil => cases h
  | cons a as ih =>
    rw [lastWith] at h
    cases hl : lastWith k as with
    | some b =>
      rw [hl] at h
      injection h with h
      subst h
      exact ih hl
    | none =>
      rw [hl] at h
      by_cases hn : a.Name = k
      · rw [if_pos hn] at h
        injection h with h
        subst h
        exact hn
      · rw [if_neg hn] at h; cases h

theorem lastWith_none (k : String) (L : List UINode)
    (h : ∀ a ∈ L, ¬(a.Name = k)) : lastWith k L = none := by
  induction L with
  | nil => rfl
  | cons a as ih =>
    rw [lastWith, ih (fun b hb => h b (List.mem_cons_of_mem _ hb)),
      if_neg (h a (List.mem_cons_self a as))]

theorem mem_dinsert (p : String × UINode) (k : String) (v : UINode)
    (d : List (String × UINode)) (h : p ∈ dinsert k v d) : p = (k, v) ∨ p ∈ d := by
  induction d with
  | nil => simpa [dinsert] using h
  | cons q rest ih =>
    by_cases h1 : q.1 = k
    · rw [dinsert, if_pos h1] at h
      rcases List.mem_cons.1 h with h | h
      · exact Or.inl h
      · exact Or.inr (List.mem_cons_of_mem _ h)
    · rw [dinsert, if_neg h1] at h
      rcases List.mem_cons.1 h with h | h
      · exact Or.inr (h ▸ List.mem_cons_self q rest)
      · rcases ih h with h | h
        · exact Or.inl h
        · exact Or.inr (List.mem_cons_of_mem _ h)

theorem mem_fold (p : String × UINode) (L : List UINode) :
    ∀ d : List (String × UINode),
      p ∈ L.foldl (fun d a => dinsert a.Name a d) d →
        p ∈ d ∨ (p.2 ∈ L ∧ p.1 = p.2.Name) := by
  induction L with
  | nil => intro d h; exact Or.inl h
  | cons a as ih =>
    intro d h
    simp only [List.foldl_cons] at h
    rcases ih _ h with h | h
    · rcases mem_dinsert _ _ _ _ h with h | h
      · subst h
        exact Or.inr ⟨List.mem_cons_self a as, rfl⟩
      · exact Or.inl h
    · exact Or.inr ⟨List.mem_cons_of_mem _ h.1, h.2⟩

theorem mem_dict_of (p : String × UINode) (L : List UINode)
    (h : p ∈ dict_of L) : p.2 ∈ L ∧ p.1 = p.2.Name := by
  rcases mem_fold p L [] h with h | h
  · cases h
  · exact h

/-- The keys of a dict, in entry order. -/
def dkeys (d : List (String × UINode)) : List String := d.map Prod.fst

theorem dkeys_dinsert_sub (k x : String) (v : UINode) (d : List (String × UINode))
    (h : x ∈ dkeys (dinsert k v d)) : x = k ∨ x ∈ dkeys d := by
  induction d with
  | nil => simpa [dinsert, dkeys] using h
  | cons p rest ih =>
    by_cases h1 : p.1 = k
    · rw [dinsert, if_pos h1] at h
      rcases List.mem_cons.1 h with h | h
      · exact Or.inl h
      · exact Or.inr (List.mem_cons_of_mem _ h)
    · rw [dinsert, if_neg h1] at h
      rcases List.mem_cons.1 h with h | h
      · exact Or.inr (h ▸ List.mem_cons_self _ _)
      · rcases ih h with h | h
        · exact Or.inl h
        · exact Or.inr (List.mem_cons_of_mem _ h)

theorem dkeys_dinsert_nodup (k : String) (v : UINode) (d : List (String × UINode))
    (h : (dkeys d).Nodup) : (dkeys (dinsert k v d)).Nodup := by
  induction d with
  | nil => simp [dinsert, dkeys]
  | cons p rest ih =>
    rw [dkeys, List.map_cons, List.nodup_cons] at h
    by_cases h1 : p.1 = k
    · rw [dinsert, if_pos h1, dkeys, List.map_cons, List.nodup_cons]
      exact ⟨h1 ▸ h.1, h.2⟩
    · rw [dinsert, if_neg h1, dkeys, List.map_cons, List.nodup_cons]
      refine ⟨fun hc => ?_, ih h.2⟩
      rcases dkeys_dinsert_sub _ _ _ _ hc with hc | hc
      · exact h1 hc
      · exact h.1 hc

theorem dkeys_fold_nodup (L : List UINode) :
    ∀ d : List (String × UINode), (dkeys d).Nodup →
      (dkeys (L.foldl (fun d a => dinsert a.Name a d) d)).Nodup := by
  induction L with
  | nil => intro d h; exact h
  | cons a as ih =>
    intro d h
    simp only [List.foldl_cons]
    exact ih _ (dkeys_dinsert_nodup _ _ _ h)

theorem dkeys_dict_of_nodup (L : List UINode) : (dkeys (dict_of L)).Nodup :=
  dkeys_fold_nodup L [] (by simp [dkeys])

theorem dfind_of_mem (d : List (String × UINode)) (k : String) (v : UINode)
    (hnd : (dkeys d).Nodup) (h : (k, v) ∈ d) : dfind k d = some v := by
  induction d with
  | nil => cases h
  | cons p rest ih =>
    rw [dkeys, List.map_cons, List.nodup_cons] at hnd
    rcases List.mem_cons.1 h with h | h
    · rw [← h, dfind, if_pos rfl]
    · by_cases h1 : p.1 = k
      · exact absurd (h1 ▸ List.mem_map_of_mem Prod.fst h) hnd.1
      · rw [dfind, if_neg h1]
        exact ih hnd.2 h

theorem dfind_dremove (k k' : String) (d : List (String × UINode)) (h : ¬(k = k')) :
    dfind k (dremove k' d) = dfind k d := by
  induction d with
  | nil => rfl
  | cons p rest ih =>
    by_cases h1 : p.1 = k'
    · rw [dremove, List.filter_cons]
      simp only [h1, decide_True, Bool.not_true, if_neg (by simp : ¬(false = true))]
      rw [dfind, if_neg (fun hc : p.1 = k => h (h1 ▸ hc ▸ rfl))]
      exact ih
    · rw [dremove, List.filter_cons]
      simp only [h1, decide_False, Bool.not_false, if_pos rfl]
      show (if p.1 = k then some p.2 else dfind k (dremove k' rest)) =
        (if p.1 = k then some p.2 else dfind k rest)
      by_cases h2 : p.1 = k
      · rw [if_pos h2, if_pos h2]
      · rw [if_neg h2, if_neg h2]
        exact ih

theorem mem_dremove (p : String × UINode) (k : String) (d : List (String × UINode))
    (h : p ∈ dremove k d) : p ∈ d ∧ ¬(p.1 = k) := by
  have := List.mem_filter.1 h
  exact ⟨this.1, by simpa using this.2⟩

theorem dkeys_dremove_nodup (k : String) (d : List (String × UINode))
    (h : (dkeys d).Nodup) : (dkeys (dremove k d)).Nodup :=
  List.Nodup.sublist (List.Sublist.map Prod.fst (List.filter_sublist d)) h

theorem dinsert_append (k : String) (v : UINode) (d : List (String × UINode))
    (h : ¬(k ∈ dkeys d)) : dinsert k v d = d ++ [(k, v)] := by
  induction d with
  | nil => rfl
  | cons p rest ih =>
    have h1 : ¬(p.1 = k) := fun hc => h (hc ▸ List.mem_cons_self _ _)
    rw [dinsert, if_neg h1, List.cons_append,
      ih (fun hc => h (List.mem_cons_of_mem _ hc))]

theorem fold_map_pair (L : List UINode) :
    ∀ d : List (String × UINode), (∀ a ∈ L, ¬(a.Name ∈ dkeys d)) →
      (L.map UINode.Name).Nodup →
      L.foldl (fun d a => dinsert a.Name a d) d = d ++ L.map (fun a => (a.Name, a)) := by
  induction L with
  | nil => intro d _ _; simp
  | cons a as ih =>
    intro d hdisj hnd
    rw [List.map_cons, List.nodup_cons] at hnd
    simp only [List.foldl_cons]
    rw [dinsert_append _ _ _ (hdisj a (List.mem_cons_self _ _))]
    rw [ih (d ++ [(a.Name, a)]) ?_ hnd.2]
    · simp
    · intro b hb hc
      rw [dkeys, List.map_append] at hc
      rcases List.mem_append.1 hc with hc | hc
      · exact hdisj b (List.mem_cons_of_mem _ hb) hc
      · simp only [List.map_cons, List.map_nil, List.mem_singleton] at hc
        exact hnd.1 (hc ▸ List.mem_map_of_mem UINode.Name hb)

theorem dict_of_map_pair (L : List UINode) (hnd : (L.map UINode.Name).Nodup) :
    dict_of L = L.map (fun a => (a.Name, a)) := by
  rw [dict_of, fold_map_pair L [] (by simp [dkeys]) hnd]
  simp

theorem dfind_map_pair (k : String) (L : List UINode) :
    dfind k (L.map (fun a => (a.Name, a))) = L.find? (fun a => a.Name = k) := by
  induction L with
  | nil => rfl
  | cons a as ih =>
    rw [List.map_cons]
    by_cases h : a.Name = k
    · rw [dfind, if_pos h, List.find?_cons_of_pos _ (by simpa using h)]
    · rw [dfind, if_neg h, List.find?_cons_of_neg _ (by simpa using h)]
      exact ih

theorem dremove_map_pair (k : String) (L : List UINode) :
    dremove k (L.map (fun a => (a.Name, a))) =
      (L.filter (fun a => !(a.Name = k))).map (fun a => (a.Name, a)) := by
  rw [dremove, List.filter_map]
  rfl

theorem head_mem_list {α : Type} (l : List α) (a : α) (h : l.head? = some a) : a ∈ l := by
  cases l with
  | nil => cases h
  | cons x xs =>
    injection h with h
    exact h ▸ List.mem_cons_self x xs

theorem selection_parts_spec (cfg : TreeConfig) (visible : UINode → Bool) (root : UINode)
    (tb pm : UINode) (ofg : Option UINode)
    (h : selection_parts cfg visible root = .ok (tb, pm, ofg)) :
    lastWith "Taskbar" (candidate_windows cfg visible root) = some tb ∧
    lastWith "Program Manager" (candidate_windows cfg visible root) = some pm ∧
    ∀ fg, ofg = some fg →
      lastWith fg.Name (candidate_windows cfg visible root) = some fg ∧
      ¬(fg.Name = "Taskbar") ∧ ¬(fg.Name = "Program Manager") := by
  unfold selection_parts at h
  by_cases hc : root.childrenOk
  case neg => rw [if_neg hc] at h; cases h
  rw [if_pos hc] at h
  unfold dpop at h
  cases hf1 : dfind "Taskbar" (dict_of (candidate_windows cfg visible root)) with
  | none => rw [hf1] at h; cases h
  | some tb0 =>
    rw [hf1] at h
    dsimp only at h
    cases hf2 : dfind "Program Manager"
        (dremove "Taskbar" (dict_of (candidate_windows cfg visible root))) with
    | none => rw [hf2] at h; cases h
    | some pm0 =>
      rw [hf2] at h
      dsimp only at h
      injection h with h
      injection h with h1 h2
      injection h2 with h2 h3
      subst h1
      subst h2
      subst h3
      refine ⟨by rw [← dfind_dict_of, hf1], ?_, ?_⟩
      · rw [← dfind_dict_of, ← dfind_dremove "Program Manager" "Taskbar" _ (by decide), hf2]
      · intro fg hofg
        cases hh : (dremove "Program Manager"
            (dremove "Taskbar" (dict_of (candidate_windows cfg visible root)))).head? with
        | none => rw [hh] at hofg; cases hofg
        | some q =>
          rw [hh] at hofg
          injection hofg with hofg
          have hq2 : q ∈ dremove "Program Manager"
              (dremove "Taskbar" (dict_of (candidate_windows cfg visible root))) :=
            head_mem_list _ _ hh
          have hq3 := mem_dremove _ _ _ hq2
          have hq4 := mem_dremove _ _ _ hq3.1
          have hq5 := mem_dict_of _ _ hq4.1
          have hq6 : dfind q.1 (dict_of (candidate_windows cfg visible root)) = some q.2 := by
            refine dfind_of_mem _ _ _ (dkeys_dict_of_nodup _) ?_
            rw [show ((q.1, q.2) : String × UINode) = q from rfl]
            exact hq4.1
          rw [dfind_dict_of] at hq6
          subst hofg
          refine ⟨?_, ?_, ?_⟩
          · rw [← hq5.2]; exact hq6
          · rw [← hq5.2]; exact hq4.2
          · rw [← hq5.2]; exact hq3.2

theorem selected_apps_spec (cfg : TreeConfig) (visible : UINode → Bool) (root : UINode)
    (sel : List (String × UINode)) (h : selected_apps cfg visible root = .ok sel) :
    ((sel.map (fun p => p.2.Name)).Nodup) ∧
    ∀ p ∈ sel, p.2 ∈ candidate_windows cfg visible root ∧
      lastWith p.2.Name (candidate_windows cfg visible root) = some p.2 := by
  unfold selected_apps at h
  cases hsp : selection_parts cfg visible root with
  | error e => rw [hsp] at h; cases h
  | ok parts =>
    rw [hsp] at h
    obtain ⟨tb, pm, ofg⟩ := parts
    obtain ⟨htb, hpm, hfgSpec⟩ := selection_parts_spec _ _ _ _ _ _ hsp
    have htbName : tb.Name = "Taskbar" := lastWith_name _ _ _ htb
    have hpmName : pm.Name = "Program Manager" := lastWith_name _ _ _ hpm
    have htbMem := lastWith_mem _ _ _ htb
    have hpmMem := lastWith_mem _ _ _ hpm
    cases ofg with
    | none =>
      dsimp only at h
      injection h with h
      subst h
      refine ⟨?_, ?_⟩
      · simp only [List.map_cons, List.map_nil, htbName, hpmName]
        simp [List.nodup_cons]
      · intro p hp
        rcases List.mem_cons.1 hp with hp | hp
        · subst hp
          exact ⟨htbMem, by dsimp only; rw [htbName]; exact htb⟩
        · rcases List.mem_cons.1 hp with hp | hp
          · subst hp
            exact ⟨hpmMem, by dsimp only; rw [hpmName]; exact hpm⟩
          · cases hp
    | some fg =>
      obtain ⟨hfg, hfgTB, hfgPM⟩ := hfgSpec fg rfl
      have hfgMem := lastWith_mem _ _ _ hfg
      dsimp only at h
      injection h with h
      subst h
      by_cases hk1 : ("Taskbar" : String) = pyStrip fg.Name
      · have hsel : dinsert (pyStrip fg.Name) fg [("Taskbar", tb), ("Program Manager", pm)] =
            [(pyStrip fg.Name, fg), ("Program Manager", pm)] := by
          simp only [dinsert]
          rw [if_pos hk1]
        rw [hsel]
        refine ⟨?_, ?_⟩
        · simp only [List.map_cons, List.map_nil, hpmName]
          simp [List.nodup_cons, hfgPM]
        · intro p hp
          rcases List.mem_cons.1 hp with hp | hp
          · subst hp
            exact ⟨hfgMem, hfg⟩
          · rcases List.mem_cons.1 hp with hp | hp
            · subst hp
              exact ⟨hpmMem, by dsimp only; rw [hpmName]; exact hpm⟩
            · cases hp
      · by_cases hk2 : ("Program Manager" : String) = pyStrip fg.Name
        · have hsel : dinsert (pyStrip fg.Name) fg [("Taskbar", tb), ("Program Manager", pm)] =
              [("Taskbar", tb), (pyStrip fg.Name, fg)] := by
            simp only [dinsert]
            rw [if_neg hk1, if_pos hk2]
          rw [hsel]
          refine ⟨?_, ?_⟩
          · simp only [List.map_cons, List.map_nil, htbName]
            simp [List.nodup_cons]
            exact fun hc => hfgTB hc.symm
          · intro p hp
            rcases List.mem_cons.1 hp with hp | hp
            · subst hp
              exact ⟨htbMem, by dsimp only; rw [htbName]; exact htb⟩
            · rcases List.mem_cons.1 hp with hp | hp
              · subst hp
                exact ⟨hfgMem, hfg⟩
              · cases hp
        · have hsel : dinsert (pyStrip fg.Name) fg [("Taskbar", tb), ("Program Manager", pm)] =
              [("Taskbar", tb), ("Program Manager", pm), (pyStrip fg.Name, fg)] := by
            simp only [dinsert]
            rw [if_neg hk1, if_neg hk2]
          rw [hsel]
          refine ⟨?_, ?_⟩
          · simp only [List.map_cons, List.map_nil, htbName, hpmName]
            simp [List.nodup_cons]
            exact ⟨fun hc => hfgTB hc.symm, fun hc => hfgPM hc.symm⟩
          · intro p hp
            rcases List.mem_cons.1 hp with hp | hp
            · subst hp
              exact ⟨htbMem, by dsimp only; rw [htbName]; exact htb⟩
            · rcases List.mem_cons.1 hp with hp | hp
              · subst hp
                exact ⟨hpmMem, by dsimp only; rw [hpmName]; exact hpm⟩
              · rcases List.mem_cons.1 hp with hp | hp
                · subst hp
                  exact ⟨hfgMem, hfg⟩
                · cases hp

/-- C1: within one walk, the classification step appends each node to at
most one of the three result lists; the roles are tested in priority order
interactive, then informative, then scrollable, and the first matching role
wins. -/
theorem role_priority (cfg : TreeConfig) (app : String) (n : UINode) (ts : TreeState)
    (h : visit cfg app n = .ok ts) :
    (ts.interactive_nodes.length + ts.informative_nodes.length +
      ts.scrollable_nodes.length ≤ 1) ∧
    (is_element_interactive cfg n = true →
      ts.informative_nodes = [] ∧ ts.scrollable_nodes = [] ∧
      ts.interactive_nodes.length = 1) ∧
    (is_element_interactive cfg n = false → is_element_text cfg n = true →
      ts.interactive_nodes = [] ∧ ts.scrollable_nodes = [] ∧
      ts.informative_nodes.length = 1) ∧
    (is_element_interactive cfg n = false → is_element_text cfg n = false →
      is_element_scrollable n = true →
      ts.interactive_nodes = [] ∧ ts.informative_nodes = [] ∧
      ts.scrollable_nodes.length = 1) ∧
    (is_element_interactive cfg n = false → is_element_text cfg n = false →
      is_element_scrollable n = false → ts = ⟨[], [], []⟩) := by
  unfold visit at h
  split at h
  next hi =>
    cases hbr : n.BoundingRectangle with
    | none => rw [hbr] at h; cases h
    | some box =>
      rw [hbr] at h
      dsimp only at h
      injection h with h
      subst h
      refine ⟨by simp, fun _ => ⟨rfl, rfl, rfl⟩, ?_, ?_, ?_⟩
      · intro hf _
        rw [hi] at hf; cases hf
      · intro hf _ _
        rw [hi] at hf; cases hf
      · intro hf _ _
        rw [hi] at hf; cases hf
  next hi =>
    rw [Bool.not_eq_true] at hi
    split at h
    next ht =>
      injection h with h
      subst h
      refine ⟨by simp, ?_, fun _ _ => ⟨rfl, rfl, rfl⟩, ?_, ?_⟩
      · intro hf
        rw [hi] at hf; cases hf
      · intro _ hf _
        rw [ht] at hf; cases hf
      · intro _ hf _
        rw [ht] at hf; cases hf
    next ht =>
      rw [Bool.not_eq_true] at ht
      split at h
      next hs =>
        cases hsp : n.scrollPattern with
        | none =>
          unfold is_element_scrollable at hs
          rw [hsp] at hs; cases hs
        | some sp =>
          rw [hsp] at h
          dsimp only at h
          cases hbr : n.BoundingRectangle with
          | none => rw [hbr] at h; cases h
          | some box =>
            rw [hbr] at h
            dsimp only at h
            injection h with h
            subst h
            refine ⟨by simp, ?_, ?_, fun _ _ _ => ⟨rfl, rfl, rfl⟩, ?_⟩
            · intro hf
              rw [hi] at hf; cases hf
            · intro _ hf
              rw [ht] at hf; cases hf
            · intro _ _ hf
              rw [hs] at hf; cases hf
      next hs =>
        rw [Bool.not_eq_true] at hs
        injection h with h
        subst h
        refine ⟨by simp, ?_, ?_, ?_, fun _ _ _ => rfl⟩
        · intro hf
          rw [hi] at hf; cases hf
        · intro _ hf
          rw [ht] at hf; cases hf
        · intro _ _ hf
          rw [hs] at hf; cases hf

/-- C1 witness: the classifier run on a concrete enabled visible button
appends exactly one interactive record and nothing else. -/
theorem role_priority_witness :
    (⟨[buttonElem "OK" "App"], [], []⟩ : TreeState).interactive_nodes.length +
      (⟨[buttonElem "OK" "App"], [], []⟩ : TreeState).informative_nodes.length +
      (⟨[buttonElem "OK" "App"], [], []⟩ : TreeState).scrollable_nodes.length ≤ 1 :=
  (role_priority cfgStd "App" (buttonNode "OK") ⟨[buttonElem "OK" "App"], [], []⟩ rfl).1

/-- C2 (amended): a node whose bounding box has non-positive width or height
is excluded from the interactive and informative roles, and every emitted
interactive or informative record comes from a node that passed the
visibility and enabled checks; the scrollable role performs no visibility or
enabled check. -/
theorem degenerate_box_excluded (cfg : TreeConfig) (app : String) (n : UINode)
    (ts : TreeState) (h : visit cfg app n = .ok ts) :
    (∀ box, n.BoundingRectangle = some box → box.isempty = true →
      ts.interactive_nodes = [] ∧ ts.informative_nodes = []) ∧
    (ts.interactive_nodes ≠ [] →
      is_element_visible n 0 = .ok true ∧ is_element_enabled n = true) ∧
    (ts.informative_nodes ≠ [] →
      is_element_visible n 0 = .ok true ∧ is_element_enabled n = true) := by
  unfold visit at h
  split at h
  next hi =>
    cases hbr : n.BoundingRectangle with
    | none => rw [hbr] at h; cases h
    | some box =>
      rw [hbr] at h
      dsimp only at h
      injection h with h
      subst h
      have hc := interactive_checks cfg n hi
      refine ⟨?_, fun _ => hc, fun hne => absurd rfl hne⟩
      intro box2 hbr2 hemp
      injection hbr2 with hbr2
      subst hbr2
      have hv1 := hc.1
      rw [visible_of_empty n box hbr hemp] at hv1
      injection hv1 with hv1
      cases hv1
  next hi =>
    split at h
    next ht =>
      injection h with h
      subst h
      have hc := text_checks cfg n ht
      refine ⟨?_, fun hne => absurd rfl hne, fun _ => hc⟩
      intro box2 hbr2 hemp
      have hv1 := hc.1
      rw [visible_of_empty n box2 hbr2 hemp] at hv1
      injection hv1 with hv1
      cases hv1
    next ht =>
      split at h
      next hs =>
        cases hsp : n.scrollPattern with
        | none =>
          unfold is_element_scrollable at hs
          rw [hsp] at hs; cases hs
        | some sp =>
          rw [hsp] at h
          dsimp only at h
          cases hbr : n.BoundingRectangle with
          | none => rw [hbr] at h; cases h
          | some box =>
            rw [hbr] at h
            dsimp only at h
            injection h with h
            subst h
            exact ⟨fun _ _ _ => ⟨rfl, rfl⟩, fun hne => absurd rfl hne,
              fun hne => absurd rfl hne⟩
      next hs =>
        injection h with h
        subst h
        exact ⟨fun _ _ _ => ⟨rfl, rfl⟩, fun hne => absurd rfl hne,
          fun hne => absurd rfl hne⟩

/-- C2 counterexample: `zeroScrollNode` has a zero-width and zero-height
bounding box and fails the visibility check, yet it is emitted into the
scrollable list — the claim's exclusion does not extend to the scrollable
role. -/
theorem degenerate_box_excluded_cex :
    zeroScrollNode.BoundingRectangle = some ⟨0, 0, 0, 0⟩ ∧
    Rect.width ⟨0, 0, 0, 0⟩ ≤ 0 ∧ Rect.height ⟨0, 0, 0, 0⟩ ≤ 0 ∧
    is_element_visible zeroScrollNode 0 = .ok false ∧
    visit cfgStd "App" zeroScrollNode =
      .ok ⟨[], [], [⟨"Pane", "App", ⟨0, 0⟩, false, true⟩]⟩ :=
  ⟨rfl, by decide, by decide, rfl, rfl⟩

/-- C2 witness: a concrete zero-width button is excluded from the
interactive and informative lists. -/
theorem degenerate_box_excluded_witness :
    Rect.isempty ⟨5, 5, 5, 9⟩ = true ∧
    ((⟨[], [], []⟩ : TreeState).interactive_nodes = [] ∧
      (⟨[], [], []⟩ : TreeState).informative_nodes = []) :=
  ⟨by decide,
   (degenerate_box_excluded cfgStd "App" deadButtonNode ⟨[], [], []⟩ rfl).1
     ⟨5, 5, 5, 9⟩ rfl (by decide)⟩

/-- C3 counterexample: in `c3app` only the second child's `GetChildren`
raises, yet the application's walk returns no partial result at all — the
classification of the classifiable sibling `Good1` is lost with it. -/
theorem subtree_isolation_cex :
    get_nodes cfgStd c3app = .error () ∧
    visit cfgStd "MyApp" (buttonNode "Good1") =
      .ok ⟨[buttonElem "Good1" "MyApp"], [], []⟩ :=
  ⟨rfl, rfl⟩

/-- C3 (amended): failure isolation holds at the application boundary, not
the subtree boundary: when one application's walk raises anywhere, that
application contributes nothing, and the other applications' contributions
to the snapshot are unchanged. -/
theorem app_failure_isolation (cfg : TreeConfig) (xs ys : List UINode) (a : UINode)
    (h : get_nodes cfg a = .error ()) :
    collect cfg (xs ++ a :: ys) = collect cfg (xs ++ ys) := by
  have hra : run_app cfg a = ⟨[], [], []⟩ := by unfold run_app; rw [h]
  unfold collect
  simp [List.flatMap_append, List.flatMap_cons, hra]

/-- C3 witness: a failing application dropped from a concrete scene leaves
the good application's contribution unchanged. -/
theorem app_failure_isolation_witness :
    get_nodes cfgStd badChild = .error () ∧
    collect cfgStd ([buttonNode "GoodApp"] ++ badChild :: []) =
      collect cfgStd ([buttonNode "GoodApp"] ++ []) :=
  ⟨rfl, app_failure_isolation cfgStd [buttonNode "GoodApp"] [] badChild rfl⟩

theorem pyInt_eq_trunc (q : Rat) : pyInt q = if q < 0 then ⌈q⌉ else ⌊q⌋ := by
  by_cases h : q < 0
  · rw [if_pos h]
    have h1 : q.num < 0 := Rat.num_neg.2 h
    have h2 : (0 : Int) ≤ -q.num := by omega
    have h3 : (0 : Int) ≤ (q.den : Int) := by omega
    have h4 : pyInt q = -Int.tdiv (-q.num) (q.den : Int) := by
      unfold pyInt
      rw [← Int.neg_tdiv, neg_neg]
    rw [h4, Int.tdiv_eq_ediv h2 h3]
    have h5 : ((-q.num) / (q.den : Int)) = ⌊-q⌋ := by
      rw [Rat.floor_def, Rat.neg_num, Rat.neg_den]
    rw [h5, Int.floor_neg, neg_neg]
  · rw [if_neg h]
    have h1 : 0 ≤ q.num := Rat.num_nonneg.2 (le_of_not_lt h)
    rw [Rat.floor_def]
    unfold pyInt
    exact Int.tdiv_eq_ediv h1 (by omega)

/-- C9: the annotator computes each drawn box by scaling every coordinate,
truncating toward zero with Python `int` (the ceiling of a negative scaled
coordinate, the floor of a non-negative one — not floor division), and
adding the padding; in particular the box (100,100,200,140) at scale 1/2
with padding 20 lands its top-left corner at (70,70), and the box
(-3,-1,2,4) at the same scale and padding at (19,20). -/
theorem annotator_box_coords :
    (∀ q : Rat, pyInt q = if q < 0 then ⌈q⌉ else ⌊q⌋) ∧
    (∀ (scale : Rat) (padding : Int) (box : BoundingBox),
      adjusted_box scale padding box =
        ⟨pyInt ((box.left : Rat) * scale) + padding,
         pyInt ((box.top : Rat) * scale) + padding,
         pyInt ((box.right : Rat) * scale) + padding,
         pyInt ((box.bottom : Rat) * scale) + padding⟩) ∧
    adjusted_box (1 / 2) 20 ⟨100, 100, 200, 140⟩ = ⟨70, 70, 120, 90⟩ ∧
    adjusted_box (1 / 2) 20 ⟨-3, -1, 2, 4⟩ = ⟨19, 20, 21, 22⟩ := by
  refine ⟨pyInt_eq_trunc, fun _ _ _ => rfl, ?_, ?_⟩
  · simp only [adjusted_box, pyInt_eq_trunc]
    norm_num
  · simp only [adjusted_box, pyInt_eq_trunc]
    norm_num [Int.ceil_neg]

/-- C6: for a fixed scene, snapshots assembled under two different task
completion orders (the only effect of a different thread-pool size) contain
exactly the same nodes in each of the three lists; only the order may
differ. -/
theorem snapshot_order_independent (cfg : TreeConfig) (visible : UINode → Bool)
    (r1 r2 : List UINode → List UINode)
    (h1 : ∀ l, (r1 l).Perm l) (h2 : ∀ l, (r2 l).Perm l)
    (root : UINode) (t1 t2 : TreeState)
    (e1 : get_appwise_nodes cfg visible r1 root = .ok t1)
    (e2 : get_appwise_nodes cfg visible r2 root = .ok t2) :
    t1.interactive_nodes.Perm t2.interactive_nodes ∧
    t1.informative_nodes.Perm t2.informative_nodes ∧
    t1.scrollable_nodes.Perm t2.scrollable_nodes := by
  unfold get_appwise_nodes at e1 e2
  cases hs : selected_apps cfg visible root with
  | error e => rw [hs] at e1; cases e1
  | ok sel =>
    rw [hs] at e1 e2
    injection e1 with e1
    injection e2 with e2
    subst e1
    subst e2
    have hp : (r1 (sel.map Prod.snd)).Perm (r2 (sel.map Prod.snd)) :=
      (h1 _).trans (h2 _).symm
    exact ⟨List.Perm.flatMap_right _ hp, List.Perm.flatMap_right _ hp,
      List.Perm.flatMap_right _ hp⟩

/-- C6 witness: the two completion orders of the concrete scene `root6`
yield the two concrete snapshots `t6a` and `t6b`, which are permutations of
each other in every component. -/
theorem snapshot_order_independent_witness :
    t6a.interactive_nodes.Perm t6b.interactive_nodes ∧
    t6a.informative_nodes.Perm t6b.informative_nodes ∧
    t6a.scrollable_nodes.Perm t6b.scrollable_nodes :=
  snapshot_order_independent cfgStd visAll id List.reverse
    (fun l => List.Perm.refl l) (fun l => l.reverse_perm) root6 t6a t6b rfl rfl

/-- C7: when the set of visible non-block-listed top-level windows contains
no window named Taskbar, or none named Program Manager, the whole snapshot
call raises instead of returning a partial snapshot. -/
theorem missing_shell_window_fails (cfg : TreeConfig) (visible : UINode → Bool)
    (reorder : List UINode → List UINode) (root : UINode)
    (h : (∀ a ∈ candidate_windows cfg visible root, ¬(a.Name = "Taskbar")) ∨
         (∀ a ∈ candidate_windows cfg visible root, ¬(a.Name = "Program Manager"))) :
    get_appwise_nodes cfg visible reorder root = .error () := by
  have hsel : selected_apps cfg visible root = .error () := by
    unfold selected_apps selection_parts
    by_cases hc : root.childrenOk
    case neg => rw [if_neg hc]
    rw [if_pos hc]
    unfold dpop
    rcases h with h | h
    · rw [dfind_dict_of, lastWith_none _ _ h]
    · cases hf1 : dfind "Taskbar" (dict_of (candidate_windows cfg visible root)) with
      | none => rfl
      | some tb0 =>
        dsimp only
        rw [dfind_dremove _ _ _ (by decide), dfind_dict_of, lastWith_none _ _ h]
  unfold get_appwise_nodes
  rw [hsel]

/-- C7 witness: the snapshot of the concrete scene `root7`, which lacks a
taskbar window, raises. -/
theorem missing_shell_window_fails_witness :
    get_appwise_nodes cfgStd visAll id root7 = .error () :=
  missing_shell_window_fails cfgStd visAll id root7 (Or.inl (by decide))

/-- C8: every window the scheduler walks is one of the visible candidate
windows, so a window whose name is on the always-ignored block-list is
never walked and contributes no nodes to any snapshot, even when visible. -/
theorem blocklisted_window_excluded (cfg : TreeConfig) (visible : UINode → Bool)
    (root : UINode) (sel : List (String × UINode))
    (h : selected_apps cfg visible root = .ok sel) :
    ∀ p ∈ sel, p.2 ∈ candidate_windows cfg visible root ∧
      cfg.AVOIDED_APPS.contains p.2.Name = false := by
  intro p hp
  have hs := (selected_apps_spec cfg visible root sel h).2 p hp
  have hmem := hs.1
  unfold candidate_windows at hmem
  have hf := List.mem_filter.1 hmem
  have hb := hf.2
  simp only [Bool.and_eq_true, Bool.not_eq_true'] at hb
  exact ⟨hs.1, hb.2⟩

/-- C8 witness: in the concrete scene `root6`, the walked taskbar window is
a candidate window and is not block-listed (while the visible block-listed
window of that scene is not walked). -/
theorem blocklisted_window_excluded_witness :
    tbWin ∈ candidate_windows cfgStd visAll root6 ∧
    cfgStd.AVOIDED_APPS.contains tbWin.Name = false :=
  blocklisted_window_excluded cfgStd visAll root6 sel6 rfl ("Taskbar", tbWin)
    (List.mem_cons_self _ _)

/-- C10: the windows walked in one snapshot bear pairwise distinct display
names, and each walked window is the last window the platform enumerated
with its name, so earlier same-named candidates contribute no nodes. -/
theorem duplicate_names_last_wins (cfg : TreeConfig) (visible : UINode → Bool)
    (root : UINode) (sel : List (String × UINode))
    (h : selected_apps cfg visible root = .ok sel) :
    ((sel.map (fun p => p.2.Name)).Nodup) ∧
    ∀ p ∈ sel, lastWith p.2.Name (candidate_windows cfg visible root) = some p.2 := by
  obtain ⟨hnd, hmem⟩ := selected_apps_spec cfg visible root sel h
  exact ⟨hnd, fun p hp => (hmem p hp).2⟩

/-- C10 witness: in the duplicate-name scene `root4x` the walked foreground
window is `dupB`, the last window enumerated with the name `App`. -/
theorem duplicate_names_last_wins_witness :
    lastWith dupB.Name (candidate_windows cfgStd visAll root4x) = some dupB :=
  (duplicate_names_last_wins cfgStd visAll root4x
      [("Taskbar", tbWin), ("Program Manager", pmWin), ("App", dupB)] rfl).2
    ("App", dupB)
    (List.mem_cons_of_mem _ (List.mem_cons_of_mem _ (List.mem_cons_self _ _)))

/-- C4 (amended): provided the visible non-block-listed windows bear
pairwise distinct names, the partitioner selects exactly one foreground
candidate — the first one the platform enumerates besides the taskbar and
the shell window (and none when no such candidate exists). -/
theorem foreground_first_enumerated (cfg : TreeConfig) (visible : UINode → Bool)
    (root : UINode) (tb pm : UINode) (ofg : Option UINode)
    (hnd : ((candidate_windows cfg visible root).map UINode.Name).Nodup)
    (h : selection_parts cfg visible root = .ok (tb, pm, ofg)) :
    ofg = (otherCandidates cfg visible root).head? := by
  unfold selection_parts at h
  by_cases hc : root.childrenOk
  case neg => rw [if_neg hc] at h; cases h
  rw [if_pos hc] at h
  rw [dict_of_map_pair _ hnd] at h
  unfold dpop at h
  rw [dfind_map_pair] at h
  cases hf1 : (candidate_windows cfg visible root).find? (fun a => a.Name = "Taskbar") with
  | none => rw [hf1] at h; cases h
  | some tb0 =>
    rw [hf1] at h
    dsimp only at h
    rw [dremove_map_pair, dfind_map_pair] at h
    cases hf2 : ((candidate_windows cfg visible root).filter
        (fun a => !(a.Name = "Taskbar"))).find? (fun a => a.Name = "Program Manager") with
    | none => rw [hf2] at h; cases h
    | some pm0 =>
      rw [hf2] at h
      dsimp only at h
      rw [dremove_map_pair] at h
      injection h with h
      injection h with h1 h2
      injection h2 with h2 h3
      subst h3
      unfold otherCandidates
      rw [List.head?_map, Option.map_map]
      cases ((candidate_windows cfg visible root).filter
          (fun a => !(a.Name = "Taskbar"))).filter
          (fun a => !(a.Name = "Program Manager")) |>.head? with
      | none => rfl
      | some a => rfl

/-- C4 counterexample: with two same-named foreground candidates the
selected window is the last-enumerated one (accelerator `second`), not the
first-enumerated candidate (accelerator `first`). -/
theorem foreground_first_enumerated_cex :
    (selection_parts cfgStd visAll root4x).toOption.map
        (fun p => p.2.2.map UINode.AcceleratorKey) = some (some "second") ∧
    (otherCandidates cfgStd visAll root4x).head?.map UINode.AcceleratorKey =
      some "first" ∧
    ¬(("second" : String) = "first") :=
  ⟨rfl, rfl, by decide⟩

/-- C4 witness: in the distinct-name scene `root4w` the selected foreground
window is `calcWin`, the first-enumerated candidate besides the taskbar and
the shell window. -/
theorem foreground_first_enumerated_witness :
    (some calcWin : Option UINode) = (otherCandidates cfgStd visAll root4w).head? :=
  foreground_first_enumerated cfgStd visAll root4w tbWin pmWin (some calcWin)
    (by decide) rfl

theorem strOr_ne_empty (s t : String) (ht : ¬(t = "")) : ¬(strOr s t = "") := by
  unfold strOr
  by_cases h : s = ""
  · rw [if_pos h]; exact ht
  · rw [if_neg h]; exact h

theorem strOr_empty_left (t : String) : strOr "" t = t := by
  unfold strOr
  rw [if_pos rfl]

theorem placeholder_ne_empty : ¬(emptyNamePlaceholder = "") := by decide

/-- C5 (amended): no emitted name is ever the empty string; a node whose
display name is empty after trimming is emitted with the placeholder in the
interactive and informative lists, while the scrollable list first falls
back to the capitalized localized control type and only then to the
placeholder. -/
theorem empty_name_placeholder (cfg : TreeConfig) (app : String) (n : UINode)
    (ts : TreeState) (h : visit cfg app n = .ok ts) :
    (∀ e ∈ ts.interactive_nodes,
      ¬(e.name = "") ∧ (pyStrip n.Name = "" → e.name = emptyNamePlaceholder)) ∧
    (∀ e ∈ ts.informative_nodes,
      ¬(e.name = "") ∧ (pyStrip n.Name = "" → e.name = emptyNamePlaceholder)) ∧
    (∀ e ∈ ts.scrollable_nodes,
      ¬(e.name = "") ∧ (pyStrip n.Name = "" →
        e.name = strOr (pyCapitalize n.LocalizedControlType) emptyNamePlaceholder)) := by
  unfold visit at h
  split at h
  next hi =>
    cases hbr : n.BoundingRectangle with
    | none => rw [hbr] at h; cases h
    | some box =>
      rw [hbr] at h
      dsimp only at h
      injection h with h
      subst h
      refine ⟨?_, fun e he => absurd he (List.not_mem_nil e),
        fun e he => absurd he (List.not_mem_nil e)⟩
      intro e he
      rcases List.mem_singleton.1 he with rfl
      refine ⟨strOr_ne_empty _ _ placeholder_ne_empty, ?_⟩
      intro hstrip
      dsimp only
      rw [hstrip, strOr_empty_left]
  next hi =>
    split at h
    next ht =>
      injection h with h
      subst h
      refine ⟨fun e he => absurd he (List.not_mem_nil e), ?_,
        fun e he => absurd he (List.not_mem_nil e)⟩
      intro e he
      rcases List.mem_singleton.1 he with rfl
      refine ⟨strOr_ne_empty _ _ placeholder_ne_empty, ?_⟩
      intro hstrip
      dsimp only
      rw [hstrip, strOr_empty_left]
    next ht =>
      split at h
      next hs =>
        cases hsp : n.scrollPattern with
        | none =>
          unfold is_element_scrollable at hs
          rw [hsp] at hs; cases hs
        | some sp =>
          rw [hsp] at h
          dsimp only at h
          cases hbr : n.BoundingRectangle with
          | none => rw [hbr] at h; cases h
          | some box =>
            rw [hbr] at h
            dsimp only at h
            injection h with h
            subst h
            refine ⟨fun e he => absurd he (List.not_mem_nil e),
              fun e he => absurd he (List.not_mem_nil e), ?_⟩
            intro e he
            rcases List.mem_singleton.1 he with rfl
            refine ⟨strOr_ne_empty _ _ (strOr_ne_empty _ _ placeholder_ne_empty), ?_⟩
            intro hstrip
            dsimp only
            rw [hstrip, strOr_empty_left]
      next hs =>
        injection h with h
        subst h
        exact ⟨fun e he => absurd he (List.not_mem_nil e),
          fun e he => absurd he (List.not_mem_nil e),
          fun e he => absurd he (List.not_mem_nil e)⟩

/-- C5 counterexample: `wsScrollNode` has a whitespace-only display name but
its scrollable record is emitted under the name `Pane` (the capitalized
localized control type), not under the placeholder. -/
theorem empty_name_placeholder_cex :
    pyStrip wsScrollNode.Name = "" ∧
    visit cfgStd "App" wsScrollNode =
      .ok ⟨[], [], [⟨"Pane", "App", ⟨2, 2⟩, false, true⟩]⟩ ∧
    ¬(("Pane" : String) = emptyNamePlaceholder) :=
  ⟨rfl, rfl, by decide⟩

/-- C5 witness: the informative record of a concrete whitespace-named text
node carries the placeholder name and not the empty string. -/
theorem empty_name_placeholder_witness :
    ¬((⟨emptyNamePlaceholder, "App"⟩ : TextElementNode).name = "") ∧
    (⟨emptyNamePlaceholder, "App"⟩ : TextElementNode).name = emptyNamePlaceholder :=
  have hthm := (empty_name_placeholder cfgStd "App" emptyTextNode
      ⟨[], [⟨emptyNamePlaceholder, "App"⟩], []⟩ rfl).2.1
    ⟨emptyNamePlaceholder, "App"⟩ (List.mem_cons_self _ _)
  ⟨hthm.1, hthm.2 rfl⟩
